import Mathlib

/-!
Formal model of the Ulysse Policy Store and Match Evaluator.

The repository snapshot contains the test suites but not `src/utils.js`
itself, so every operational definition below is modelled from the design
specification (spec.md) — the Time Resolver (§4.1), Policy Store (§4.2),
Shield Guard (§4.3), Distraction Validator (§4.4) and Match Evaluator
(§4.5) — and cross-checked against the concrete expectations recorded in
the repository's test files.

Strings are modelled as lists of characters; epoch instants as natural
numbers of seconds; the local wall-clock hour is carried explicitly,
since it is not derivable from an epoch without a timezone database.
-/

/-- Character strings of the policy document, modelled as `List Char`. -/
abbrev Str := List Char

/-- Modelled from the spec (§4.1, missing `src/utils.js`): leading run of
decimal digits of a string, paired with the remainder. -/
def takeDigits : Str → Str × Str
  | [] => ([], [])
  | c :: cs =>
    if c.isDigit then (c :: (takeDigits cs).1, (takeDigits cs).2)
    else ([], c :: cs)

/-- Modelled from the spec (§4.1, missing `src/utils.js`): decimal value of
a digit string. -/
def digitsToNat (ds : Str) : Nat := ds.foldl (fun n c => 10 * n + (c.toNat - 48)) 0

/-- Modelled from the spec (§4.1, missing `src/utils.js`): one optional
`<n><u>` token of a Duration spec. Returns the token's value and the rest
of the input, or `none` and the untouched input when the token is absent. -/
def parseToken (u : Char) (cs : Str) : Option Nat × Str :=
  let ds := (takeDigits cs).1
  match (takeDigits cs).2 with
  | c :: rest2 => if c = u ∧ ds ≠ [] then (some (digitsToNat ds), rest2) else (none, cs)
  | [] => (none, cs)

/-- Modelled from the spec (§4.1, missing `src/utils.js`): total seconds of
a Duration spec made of optional `<n>d`, `<n>h`, `<n>m` tokens, at least
one token required, tokens summed. `none` on malformed input. -/
def parseDuration (s : Str) : Option Nat :=
  let d := parseToken 'd' s
  let h := parseToken 'h' d.2
  let m := parseToken 'm' h.2
  if m.2 = [] ∧ (d.1.isSome ∨ h.1.isSome ∨ m.1.isSome) then
    some (86400 * d.1.getD 0 + 3600 * h.1.getD 0 + 60 * m.1.getD 0)
  else none

/-- Modelled from the spec (§4.1, missing `src/utils.js`): an Interval spec
`<startHour>h-<endHour>h` with both hours in `0–23`, parsed to the pair of
hours; `none` on malformed input. -/
def parseInterval (s : Str) : Option (Nat × Nat) :=
  match (takeDigits s).2 with
  | 'h' :: '-' :: rest2 =>
    (match (takeDigits rest2).2 with
     | ['h'] =>
       if (takeDigits s).1 ≠ [] ∧ (takeDigits rest2).1 ≠ [] ∧
          digitsToNat (takeDigits s).1 ≤ 23 ∧ digitsToNat (takeDigits rest2).1 ≤ 23 then
         some (digitsToNat (takeDigits s).1, digitsToNat (takeDigits rest2).1)
       else none
     | _ => none)
  | _ => none

/-- Membership test for a character in a string. -/
def strContains (s : Str) (c : Char) : Bool := s.any (fun a => decide (a = c))

/-- Suffix test for strings. -/
def strEndsWith (s suf : Str) : Bool := decide (suf <:+ s)

/-- The two kinds of time specification of the spec's Time Resolver. -/
inductive TimeType where
  | duration
  | interval
deriving DecidableEq

/-- Modelled from the spec (§4.1 `classify`, missing `src/utils.js`): a
spec containing `-` is an Interval, otherwise a Duration; `none` when the
string fails to parse as the indicated kind. -/
def getTimeType (s : Str) : Option TimeType :=
  if strContains s '-' then
    if (parseInterval s).isSome then some TimeType.interval else none
  else
    if (parseDuration s).isSome then some TimeType.duration else none

/-- Modelled from the spec (§4.1 `resolveTimeout`, missing `src/utils.js`):
the supplied epoch plus the total seconds of a Duration spec. -/
def createTimeout (time : Str) (timestamp : Nat) : Option Nat :=
  (parseDuration time).map (fun s => timestamp + s)

/-- Modelled from the spec (§4.5 name-matching rule, missing
`src/utils.js`): exact equality; `*.<suffix>` matches the suffix itself or
anything ending in `.<suffix>`; `*.*` matches exactly the names containing
a dot. -/
def nameMatches (pat candidate : Str) : Bool :=
  if pat = candidate then true
  else
    match pat with
    | '*' :: '.' :: suf =>
      if suf = ['*'] then strContains candidate '.'
      else decide (candidate = suf) || strEndsWith candidate ('.' :: suf)
    | _ => false

/-- A Distraction Entry of the policy document (spec §3). -/
structure Distraction where
  name : Str
  time : Option Str := none
  timeout : Option Nat := none
deriving DecidableEq

/-- The evaluation instant: epoch seconds plus the local hour-of-day. -/
structure Time where
  epoch : Nat
  hour : Nat
deriving DecidableEq

/-- Modelled from the spec (§3, missing `src/utils.js`): an entry whose
`timeout` is in the past is expired. -/
def isExpired (d : Distraction) (now : Nat) : Bool :=
  match d.timeout with
  | some t => decide (t < now)
  | none => false

/-- Modelled from the spec (§4.2, missing `src/utils.js`): drop the
entries whose `timeout` is in the past. -/
def pruneExpired (l : List Distraction) (now : Nat) : List Distraction :=
  l.filter (fun d => !isExpired d now)

/-- Modelled from the spec (§4.5 step 3 and §7, missing `src/utils.js`):
a blocklist entry counts as active unless it carries an Interval `time`
whose window excludes the current local hour; a Duration `time` and an
unparseable `time` are treated as always active. -/
def isActiveNow (d : Distraction) (tm : Time) : Bool :=
  match d.time with
  | none => true
  | some ts =>
    match getTimeType ts with
    | some TimeType.interval =>
      match parseInterval ts with
      | some ab => decide (ab.1 ≤ tm.hour) && decide (tm.hour < ab.2)
      | none => true
    | _ => true

/-- The Policy Document (spec §3). -/
structure Config where
  blocklist : List Distraction := []
  whitelist : List Distraction := []
  shield : Bool := false
  passwordHash : Option Str := none
deriving DecidableEq

/-- Modelled from the spec (§4.5 `isBlocked`, missing `src/utils.js`):
whitelist name-matches win immediately; otherwise the pruned blocklist is
scanned for a name-matching entry that is active at the current hour.
Whitelist entries carry no time/timeout semantics beyond name matching
(spec §3). -/
def isDistractionBlocked (cfg : Config) (candidate : Str) (tm : Time) : Bool :=
  if cfg.whitelist.any (fun d => nameMatches d.name candidate) then false
  else
    (pruneExpired cfg.blocklist tm.epoch).any
      (fun d => nameMatches d.name candidate && isActiveNow d tm)

/-- Modelled from the spec (§4.4, missing `src/utils.js`): syntactically
valid wildcard/domain patterns — `*.*`, `*.<domain>`, or a name containing
a dot. -/
def isDomainPattern (name : Str) : Bool :=
  match name with
  | '*' :: '.' :: _ => true
  | _ => strContains name '.'

/-- Modelled from the spec (§4.4 `validate`, missing `src/utils.js`): the
name must be non-empty, not the bare `*`, and either a domain pattern or a
known installed application; a `time`, when present, must classify. The
set of installed applications is an external collaborator (§6), passed as
an argument. -/
def isValidDistraction (installedApps : List Str) (d : Distraction) : Bool :=
  decide (d.name ≠ []) && decide (d.name ≠ ['*']) &&
  (isDomainPattern d.name || installedApps.any (fun a => decide (a = d.name))) &&
  (match d.time with
   | none => true
   | some t => (getTimeType t).isSome)

/-- A partial edit of the policy document: absent fields are untouched;
`password` is the caller-supplied plaintext checked by the Shield Guard. -/
structure ConfigPatch where
  blocklist : Option (List Distraction) := none
  whitelist : Option (List Distraction) := none
  shield : Option Bool := none
  passwordHash : Option Str := none
  password : Option Str := none
deriving DecidableEq

/-- Modelled from the spec (§4.3, missing `src/utils.js`): a patch is
authorized when shield mode is off, when no password hash is stored yet,
or when the supplied password hashes to the stored hash. The digest
function is an external collaborator (§6), passed as an argument. -/
def shieldAuthorized (hash : Str → Str) (current : Config) (patch : ConfigPatch) : Bool :=
  !current.shield ||
  (match current.passwordHash, patch.password with
   | none, _ => true
   | some h, some p => decide (hash p = h)
   | some _, none => false)

/-- Whether some entry of the list carries the given name. -/
def hasName (l : List Distraction) (n : Str) : Bool :=
  l.any (fun d => decide (d.name = n))

/-- Modelled from the spec (§4.2 and §4.3, missing `src/utils.js`): the
patch's blocklist is the desired end state; when unauthorized, removals
are rejected (current entries are all kept) while additions pass. -/
def mergeBlocklist (authorized : Bool) (current patch : List Distraction) : List Distraction :=
  if authorized then patch
  else current ++ patch.filter (fun d => !hasName current d.name)

/-- Modelled from the spec (§4.2 and §4.3, missing `src/utils.js`): the
patch's whitelist is the desired end state; when unauthorized, additions
are rejected (only current entries also named by the patch survive). -/
def mergeWhitelist (authorized : Bool) (current patch : List Distraction) : List Distraction :=
  if authorized then patch
  else current.filter (fun d => hasName patch d.name)

/-- Modelled from the spec (§3 lifecycle, missing `src/constants.js`): the
initial policy document — empty lists, shield off, no password hash. -/
def DEFAULT_CONFIG : Config := {}

/-- Modelled from the spec (§4.2 `merge` with the §4.3 Shield Guard,
missing `src/utils.js`): load the stored document (initializing a missing
one), prune expired entries before the diff, then apply the patch —
blocklist/whitelist as gated end-state sets, shield enabling always
allowed, shield disabling and the password hash gated by authorization.
Returns the post-merge document, which the caller persists. -/
def editConfig (hash : Str → Str) (store : Option Config) (patch : ConfigPatch)
    (now : Nat) : Config :=
  let current0 := store.getD DEFAULT_CONFIG
  let current : Config :=
    { current0 with
      blocklist := pruneExpired current0.blocklist now
      whitelist := pruneExpired current0.whitelist now }
  let auth := shieldAuthorized hash current patch
  { blocklist :=
      match patch.blocklist with
      | some l => mergeBlocklist auth current.blocklist l
      | none => current.blocklist
    whitelist :=
      match patch.whitelist with
      | some l => mergeWhitelist auth current.whitelist l
      | none => current.whitelist
    shield :=
      match patch.shield with
      | some b => if b then true else if auth then false else current.shield
      | none => current.shield
    passwordHash :=
      if auth then
        match patch.passwordHash with
        | some h => some h
        | none => current.passwordHash
      else current.passwordHash }

/-- Failure taxonomy of the Policy Store load operation (spec §7). -/
inductive PolicyError where
  | notFound
deriving DecidableEq

/-- Modelled from the spec (§4.2 `load`, missing `src/utils.js`): reading
the persisted document fails with `NotFound` when no document exists. -/
def readConfig (store : Option Config) : Except PolicyError Config :=
  match store with
  | some cfg => Except.ok cfg
  | none => Except.error PolicyError.notFound

/-- The name-matching rule exactly as the spec words it (§4.5): exact
string equality; or pattern `*.<suffix>` matches a candidate equal to
`<suffix>` or ending in `.<suffix>`; or pattern `*.*` matches exactly the
candidates containing a dot. Stated separately from `nameMatches` for the
refinement comparison. -/
def NameMatchesRule (pat candidate : Str) : Prop :=
  pat = candidate ∨
  (pat = ['*', '.', '*'] ∧ '.' ∈ candidate) ∨
  (pat ≠ ['*', '.', '*'] ∧ ∃ suf, pat = '*' :: '.' :: suf ∧
     (candidate = suf ∨ ('.' :: suf) <:+ candidate))

/-! ## Helper lemmas -/

theorem strContains_iff (s : Str) (c : Char) : strContains s c = true ↔ c ∈ s := by
  simp [strContains, List.any_eq_true]

theorem takeDigits_eq (cs : Str) :
    cs = (takeDigits cs).1 ++ (takeDigits cs).2 := by
  induction cs with
  | nil => rfl
  | cons c cs ih =>
    by_cases h : c.isDigit
    · simp only [takeDigits, h, if_pos, List.cons_append]
      exact congrArg (c :: ·) ih
    · simp [takeDigits, h]

theorem takeDigits_isDigit (cs : Str) :
    ∀ c ∈ (takeDigits cs).1, c.isDigit = true := by
  induction cs with
  | nil => intro c hc; simp [takeDigits] at hc
  | cons a cs ih =>
    intro c hc
    by_cases h : a.isDigit
    · simp only [takeDigits, h, if_pos, List.mem_cons] at hc
      rcases hc with rfl | hc
      · exact h
      · exact ih c hc
    · simp [takeDigits, h] at hc

theorem parseToken_split (u : Char) (cs : Str) :
    ∃ pre, cs = pre ++ (parseToken u cs).2 ∧ ∀ c ∈ pre, c.isDigit = true ∨ c = u := by
  rcases h2 : (takeDigits cs).2 with _ | ⟨c, rest2⟩
  · exact ⟨[], by simp [parseToken, h2], by simp⟩
  · by_cases hc : c = u ∧ (takeDigits cs).1 ≠ []
    · obtain ⟨rfl, hne⟩ := hc
      have hp : (parseToken c cs).2 = rest2 := by simp [parseToken, h2, hne]
      refine ⟨(takeDigits cs).1 ++ [c], ?_, ?_⟩
      · rw [hp, List.append_assoc]
        have hs := takeDigits_eq cs
        rw [h2] at hs
        simpa using hs
      · intro a ha
        rcases List.mem_append.1 ha with ha | ha
        · exact Or.inl (takeDigits_isDigit cs a ha)
        · simp only [List.mem_singleton] at ha
          exact Or.inr ha
    · exact ⟨[], by simp [parseToken, h2, hc], by simp⟩

theorem parseDuration_chars (s : Str) (n : Nat) (h : parseDuration s = some n) :
    ∀ c ∈ s, c.isDigit = true ∨ c = 'd' ∨ c = 'h' ∨ c = 'm' := by
  simp only [parseDuration] at h
  split at h
  case isFalse => exact absurd h (by simp)
  case isTrue hcond =>
    obtain ⟨pre1, he1, hc1⟩ := parseToken_split 'd' s
    obtain ⟨pre2, he2, hc2⟩ := parseToken_split 'h' (parseToken 'd' s).2
    obtain ⟨pre3, he3, hc3⟩ := parseToken_split 'm' (parseToken 'h' (parseToken 'd' s).2).2
    intro c hc
    rw [he1, he2, he3, hcond.1] at hc
    simp only [List.append_nil, List.mem_append] at hc
    rcases hc with hc | hc | hc
    · rcases hc1 c hc with hd | hd
      · exact Or.inl hd
      · exact Or.inr (Or.inl hd)
    · rcases hc2 c hc with hd | hd
      · exact Or.inl hd
      · exact Or.inr (Or.inr (Or.inl hd))
    · rcases hc3 c hc with hd | hd
      · exact Or.inl hd
      · exact Or.inr (Or.inr (Or.inr hd))

theorem parseDuration_no_dash (s : Str) (n : Nat) (h : parseDuration s = some n) :
    strContains s '-' = false := by
  cases hb : strContains s '-'
  · rfl
  · exfalso
    have hm : '-' ∈ s := (strContains_iff s '-').1 hb
    rcases parseDuration_chars s n h '-' hm with hd | hd | hd | hd
    · exact absurd hd (by decide)
    all_goals exact absurd hd (by decide)

theorem parseInterval_dash (s : Str) (ab : Nat × Nat) (h : parseInterval s = some ab) :
    strContains s '-' = true := by
  simp only [parseInterval] at h
  split at h
  case h_2 => exact absurd h (by simp)
  case h_1 rest2 heq =>
    apply (strContains_iff s '-').2
    have hs := takeDigits_eq s
    rw [heq] at hs
    rw [hs]
    simp

theorem getTimeType_of_parseDuration (s : Str) (n : Nat) (h : parseDuration s = some n) :
    getTimeType s = some TimeType.duration := by
  simp [getTimeType, parseDuration_no_dash s n h, h]

theorem getTimeType_of_parseInterval (s : Str) (ab : Nat × Nat)
    (h : parseInterval s = some ab) :
    getTimeType s = some TimeType.interval := by
  simp [getTimeType, parseInterval_dash s ab h, h]

theorem mem_pruneExpired (l : List Distraction) (now : Nat) (d : Distraction) :
    d ∈ pruneExpired l now ↔ d ∈ l ∧ isExpired d now = false := by
  simp [pruneExpired, List.mem_filter]

theorem pruneExpired_idem (l : List Distraction) (now : Nat) :
    pruneExpired (pruneExpired l now) now = pruneExpired l now := by
  simp [pruneExpired, List.filter_filter]

theorem shieldAuthorized_prune (hash : Str → Str) (cfg : Config) (patch : ConfigPatch)
    (now : Nat) :
    shieldAuthorized hash
      { cfg with blocklist := pruneExpired cfg.blocklist now
                 whitelist := pruneExpired cfg.whitelist now } patch =
      shieldAuthorized hash cfg patch := rfl

theorem editConfig_some (hash : Str → Str) (cfg : Config) (patch : ConfigPatch)
    (now : Nat) :
    editConfig hash (some cfg) patch now =
      { blocklist :=
          match patch.blocklist with
          | some l => mergeBlocklist (shieldAuthorized hash cfg patch)
              (pruneExpired cfg.blocklist now) l
          | none => pruneExpired cfg.blocklist now
        whitelist :=
          match patch.whitelist with
          | some l => mergeWhitelist (shieldAuthorized hash cfg patch)
              (pruneExpired cfg.whitelist now) l
          | none => pruneExpired cfg.whitelist now
        shield :=
          match patch.shield with
          | some b => if b then true
              else if shieldAuthorized hash cfg patch then false else cfg.shield
          | none => cfg.shield
        passwordHash :=
          if shieldAuthorized hash cfg patch then
            match patch.passwordHash with
            | some h => some h
            | none => cfg.passwordHash
          else cfg.passwordHash } := rfl

theorem editConfig_none (hash : Str → Str) (patch : ConfigPatch) (now : Nat) :
    editConfig hash none patch now = editConfig hash (some DEFAULT_CONFIG) patch now := rfl

/-! ## Claims -/

/-- Claim C1: for every policy document, candidate name and evaluation
instant, if some whitelist entry name-matches the candidate then
`isDistractionBlocked` returns false, regardless of the blocklist —
including a blocklist carrying the universal wildcard or an exact-match
entry for the candidate. -/
theorem whitelist_always_wins (cfg : Config) (candidate : Str) (tm : Time)
    (h : ∃ d ∈ cfg.whitelist, nameMatches d.name candidate = true) :
    isDistractionBlocked cfg candidate tm = false := by
  have hany : cfg.whitelist.any (fun d => nameMatches d.name candidate) = true :=
    List.any_eq_true.2 (by simpa using h)
  simp [isDistractionBlocked, hany]

/-- Witness for C1 at the spec's own example: blocklist `[*.*]`,
whitelist `[www.example.com]`, candidate `www.example.com`. -/
theorem whitelist_always_wins_witness :
    isDistractionBlocked
      { blocklist := [{ name := "*.*".data }]
        whitelist := [{ name := "www.example.com".data }] }
      "www.example.com".data { epoch := 1700000000, hour := 12 } = false :=
  whitelist_always_wins _ _ _ ⟨{ name := "www.example.com".data }, by decide, by decide⟩

/-- Claim C2: `nameMatches` is exactly the spec's name-matching rule —
equality, or `*.<suffix>` against the suffix itself or `.<suffix>`-ended
candidates, or `*.*` against dotted candidates only; in particular `*.*`
never matches a bare application identifier, and an exact entry does not
match its parent domain. -/
theorem nameMatches_matches_rule :
    (∀ pat candidate : Str,
       nameMatches pat candidate = true ↔ NameMatchesRule pat candidate) ∧
    nameMatches "*.*".data "chromium".data = false ∧
    nameMatches "www.example.com".data "example.com".data = false := by
  refine ⟨?_, by decide, by decide⟩
  intro pat candidate
  unfold nameMatches NameMatchesRule
  split
  case isTrue h => subst h; simp
  case isFalse h =>
    split
    · next suf =>
      by_cases hsuf : suf = ['*']
      · subst hsuf
        rw [if_pos rfl]
        constructor
        · intro hsc
          exact Or.inr (Or.inl ⟨rfl, (strContains_iff _ _).1 hsc⟩)
        · rintro (hx | ⟨_, hdot⟩ | ⟨hne, _⟩)
          · exact absurd hx h
          · exact (strContains_iff _ _).2 hdot
          · exact absurd rfl hne
      · rw [if_neg hsuf]
        have hnp : ('*' :: '.' :: suf : Str) ≠ ['*', '.', '*'] := by
          intro hbad
          apply hsuf
          have := List.cons.injEq .. ▸ hbad
          simpa using hbad
        constructor
        · intro hor
          simp only [Bool.or_eq_true, decide_eq_true_eq, strEndsWith] at hor
          rcases hor with h1 | h1
          · exact Or.inr (Or.inr ⟨hnp, suf, rfl, Or.inl h1⟩)
          · exact Or.inr (Or.inr ⟨hnp, suf, rfl, Or.inr h1⟩)
        · rintro (hx | ⟨hpp, _⟩ | ⟨_, suf', hinj, hcs⟩)
          · exact absurd hx h
          · exact absurd hpp hnp
          · obtain rfl : suf' = suf := by
              have := hinj
              simp only [List.cons.injEq, true_and] at this
              exact this.symm
            simp only [Bool.or_eq_true, decide_eq_true_eq, strEndsWith]
            rcases hcs with h1 | h1
            · exact Or.inl h1
            · exact Or.inr h1
    · next hmatch =>
      constructor
      · intro hx
        exact absurd hx (by simp)
      · rintro (hx | ⟨hp, _⟩ | ⟨_, suf, hp, _⟩)
        · exact absurd hx h
        · exact absurd hp (by intro hbad; exact hmatch ['*'] hbad)
        · exact absurd hp (by intro hbad; exact hmatch suf hbad)

/-- Claim C5: for every valid Duration string and every epoch value,
`createTimeout` returns the epoch plus the summed seconds of the
`<n>d`/`<n>h`/`<n>m` tokens; in particular the five values recorded in
the test suite. -/
theorem createTimeout_adds_duration :
    (∀ (d : Str) (t s : Nat), parseDuration d = some s →
       createTimeout d t = some (t + s)) ∧
    createTimeout "30m".data 1704063600 = some 1704065400 ∧
    createTimeout "2h".data 1704063600 = some 1704070800 ∧
    createTimeout "1h59m".data 1704063600 = some 1704070740 ∧
    createTimeout "1d".data 1704063600 = some 1704150000 ∧
    createTimeout "1m".data 1704063600 = some 1704063660 := by
  refine ⟨?_, by decide, by decide, by decide, by decide, by decide⟩
  intro d t s h
  simp [createTimeout, h]

/-- Witness for C5 at the duration `30m` and epoch `0`. -/
theorem createTimeout_adds_duration_witness :
    createTimeout "30m".data 0 = some (0 + 1800) :=
  createTimeout_adds_duration.1 "30m".data 0 1800 (by decide)

/-- Counterexample to C8 as stated: the spec `x-y` contains a `-` yet is
not labelled Interval — it fails to classify altogether, the spec's
`InvalidFormat` outcome for a time specification that cannot be
classified, which the validator relies on to reject such entries. -/
theorem getTimeType_dash_counterexample :
    strContains ['x', '-', 'y'] '-' = true ∧
    getTimeType ['x', '-', 'y'] ≠ some TimeType.interval ∧
    getTimeType ['x', '-', 'y'] = none := by decide

/-- Claim C8 (amended: a malformed dash-containing spec fails to classify
rather than being labelled Interval): `getTimeType` never labels a spec
containing `-` as Duration; it labels every well-formed Interval spec —
one parsing as `<A>h-<B>h` with both hours at most 23 — as Interval, and
every spec built from at least one `<n>d`/`<n>h`/`<n>m` token (hence
dash-free) as Duration; in particular the four classifications recorded
in the test suite. -/
theorem getTimeType_classification :
    (∀ s : Str, strContains s '-' = true → getTimeType s ≠ some TimeType.duration) ∧
    (∀ (s : Str) (a b : Nat), parseInterval s = some (a, b) →
       getTimeType s = some TimeType.interval) ∧
    (∀ (s : Str) (n : Nat), parseDuration s = some n →
       getTimeType s = some TimeType.duration) ∧
    getTimeType "1d".data = some TimeType.duration ∧
    getTimeType "30m".data = some TimeType.duration ∧
    getTimeType "1h30m".data = some TimeType.duration ∧
    getTimeType "10h-18h".data = some TimeType.interval := by
  refine ⟨?_, ?_, ?_, by decide, by decide, by decide, by decide⟩
  · intro s hdash
    simp only [getTimeType, hdash, if_true]
    split <;> simp
  · intro s a b h
    exact getTimeType_of_parseInterval s (a, b) h
  · intro s n h
    exact getTimeType_of_parseDuration s n h

/-- Witness for C8 at the dashed spec `1h-`, the interval `0h-1h` and the
duration `1h`. -/
theorem getTimeType_classification_witness :
    getTimeType ['1', 'h', '-'] ≠ some TimeType.duration ∧
    getTimeType "0h-1h".data = some TimeType.interval ∧
    getTimeType "1h".data = some TimeType.duration :=
  ⟨getTimeType_classification.1 ['1', 'h', '-'] (by decide),
   getTimeType_classification.2.1 "0h-1h".data 0 1 (by decide),
   getTimeType_classification.2.2.1 "1h".data 3600 (by decide)⟩

/-- Claim C6: with blocklist `[{example.com, 0h-23h}]` and an empty
whitelist, `isDistractionBlocked example.com` returns true at every local
hour in `[0, 23)`; in general a blocklist entry carrying an Interval
`time` matches its own name exactly when the current local hour lies in
`[start, end)`. -/
theorem interval_blocking :
    (∀ ep h : Nat, h < 23 →
       isDistractionBlocked
         { blocklist := [{ name := "example.com".data, time := some "0h-23h".data }]
           whitelist := [] }
         "example.com".data { epoch := ep, hour := h } = true) ∧
    (∀ (nm ts : Str) (a b : Nat) (tm : Time), parseInterval ts = some (a, b) →
       (isDistractionBlocked
           { blocklist := [{ name := nm, time := some ts }], whitelist := [] }
           nm tm = true ↔ (a ≤ tm.hour ∧ tm.hour < b))) := by
  have hgen : ∀ (nm ts : Str) (a b : Nat) (tm : Time), parseInterval ts = some (a, b) →
      (isDistractionBlocked
          { blocklist := [{ name := nm, time := some ts }], whitelist := [] }
          nm tm = true ↔ (a ≤ tm.hour ∧ tm.hour < b)) := by
    intro nm ts a b tm hp
    have hm : nameMatches nm nm = true := by simp [nameMatches]
    have hgt := getTimeType_of_parseInterval ts (a, b) hp
    simp [isDistractionBlocked, pruneExpired, isExpired, isActiveNow, hgt, hp, hm]
  refine ⟨?_, hgen⟩
  intro ep h hh
  exact (hgen "example.com".data "0h-23h".data 0 23 { epoch := ep, hour := h }
    (by decide)).2 ⟨Nat.zero_le h, hh⟩

/-- Witness for C6: the end-to-end document evaluated at noon. -/
theorem interval_blocking_witness :
    isDistractionBlocked
      { blocklist := [{ name := "example.com".data, time := some "0h-23h".data }]
        whitelist := [] }
      "example.com".data { epoch := 0, hour := 12 } = true :=
  interval_blocking.1 0 12 (by decide)

/-- Claim C7: the Distraction Validator rejects the empty name, the bare
`*`, any entry whose `time` fails to classify, and any non-domain name
absent from the installed applications; it accepts `*.*`,
`*.example.com`, `example.com`, and an installed application name with a
valid `time`. It is a total boolean function, so it never raises. -/
theorem isValidDistraction_spec :
    (∀ (apps : List Str) (t : Option Str) (tout : Option Nat),
       isValidDistraction apps { name := [], time := t, timeout := tout } = false) ∧
    (∀ (apps : List Str) (t : Option Str) (tout : Option Nat),
       isValidDistraction apps { name := ['*'], time := t, timeout := tout } = false) ∧
    (∀ (apps : List Str) (d : Distraction) (ts : Str),
       d.time = some ts → getTimeType ts = none → isValidDistraction apps d = false) ∧
    (∀ (apps : List Str) (d : Distraction),
       isDomainPattern d.name = false → d.name ∉ apps →
       isValidDistraction apps d = false) ∧
    (∀ apps : List Str, isValidDistraction apps { name := ['*', '.', '*'] } = true) ∧
    (∀ apps : List Str,
       isValidDistraction apps { name := '*' :: '.' :: "example.com".data } = true) ∧
    (∀ apps : List Str, isValidDistraction apps { name := "example.com".data } = true) ∧
    (∀ (apps : List Str) (nm ts : Str), nm ∈ apps → nm ≠ [] → nm ≠ ['*'] →
       (getTimeType ts).isSome = true →
       isValidDistraction apps { name := nm, time := some ts } = true) := by
  refine ⟨?_, ?_, ?_, ?_, ?_, ?_, ?_, ?_⟩
  · intro apps t tout
    simp [isValidDistraction]
  · intro apps t tout
    simp [isValidDistraction]
  · intro apps d ts hts hgt
    simp [isValidDistraction, hts, hgt]
  · intro apps d hdom hmem
    have hany : apps.any (fun a => decide (a = d.name)) = false := by
      rw [← Bool.not_eq_true]
      intro hA
      obtain ⟨a, ha, hEq⟩ := List.any_eq_true.1 hA
      exact hmem ((of_decide_eq_true hEq) ▸ ha)
    simp [isValidDistraction, hdom, hany]
  · intro apps
    simp [isValidDistraction, isDomainPattern]
  · intro apps
    simp [isValidDistraction, isDomainPattern]
  · intro apps
    simp [isValidDistraction, isDomainPattern, strContains]
  · intro apps nm ts hmem hne1 hne2 hcl
    have hany : apps.any (fun a => decide (a = nm)) = true :=
      List.any_eq_true.2 ⟨nm, hmem, decide_eq_true rfl⟩
    simp [isValidDistraction, hne1, hne2, hany, hcl]

/-- Witness for C7: the validator at the test suite's concrete entries,
with `chromium` the only installed application. -/
theorem isValidDistraction_spec_witness :
    isValidDistraction ["chromium".data]
      { name := "chromium".data, time := some "badtime".data } = false ∧
    isValidDistraction ["chromium".data]
      { name := "chromium".data, time := some "1m".data } = true ∧
    isValidDistraction ["chromium".data] { name := "inexistent".data } = false :=
  ⟨isValidDistraction_spec.2.2.1 _ _ "badtime".data rfl (by decide),
   isValidDistraction_spec.2.2.2.2.2.2.2 _ "chromium".data "1m".data
     (by decide) (by decide) (by decide) (by decide),
   isValidDistraction_spec.2.2.2.1 _ _ (by decide) (by decide)⟩

/-- Counterexample to C3 as stated: with shield on and no password
supplied, a merge does not leave every existing blocklist entry present —
an entry whose `timeout` is in the past is dropped all the same, as the
expiry-pruning test of the suite demands. -/
theorem editConfig_shield_keeps_all_counterexample :
    (editConfig (fun s => '#' :: s)
        (some { blocklist := [{ name := ['x'], timeout := some 5 }]
                shield := true, passwordHash := some ['H'] })
        { blocklist := some [] } 10).shield = true ∧
    ({ name := ['x'], timeout := some 5 } : Distraction) ∈
      ({ blocklist := [{ name := ['x'], timeout := some 5 }]
         shield := true, passwordHash := some ['H'] } : Config).blocklist ∧
    ({ name := ['x'], timeout := some 5 } : Distraction) ∉
      (editConfig (fun s => '#' :: s)
        (some { blocklist := [{ name := ['x'], timeout := some 5 }]
                shield := true, passwordHash := some ['H'] })
        { blocklist := some [] } 10).blocklist := by decide

/-- Claim C3 (amended: expired entries are still pruned): when the stored
document has shield on and the patch is unauthorized — its password, if
any, does not hash to the stored hash — the merge keeps shield on, keeps
every *non-expired* stored blocklist entry, and adds no whitelist entry;
an authorized patch may disable shield, shrink the blocklist and grow the
whitelist to exactly its lists. -/
theorem editConfig_shield_gating (hash : Str → Str) (cfg : Config) (patch : ConfigPatch)
    (now : Nat) (hs : cfg.shield = true) :
    (shieldAuthorized hash cfg patch = false →
       (editConfig hash (some cfg) patch now).shield = true ∧
       (∀ d ∈ cfg.blocklist, isExpired d now = false →
          d ∈ (editConfig hash (some cfg) patch now).blocklist) ∧
       (∀ d ∈ (editConfig hash (some cfg) patch now).whitelist, d ∈ cfg.whitelist)) ∧
    (shieldAuthorized hash cfg patch = true →
       (∀ b, patch.shield = some b → (editConfig hash (some cfg) patch now).shield = b) ∧
       (∀ l, patch.blocklist = some l →
          (editConfig hash (some cfg) patch now).blocklist = l) ∧
       (∀ l, patch.whitelist = some l →
          (editConfig hash (some cfg) patch now).whitelist = l)) := by
  rw [editConfig_some]
  constructor
  · intro hub
    refine ⟨?_, ?_, ?_⟩
    · show (match patch.shield with
        | some b => if b then true
            else if shieldAuthorized hash cfg patch then false else cfg.shield
        | none => cfg.shield) = true
      rcases hps : patch.shield with _ | b
      · exact hs
      · cases b
        · simp [hub, hs]
        · rfl
    · intro d hd hexp
      show d ∈ (match patch.blocklist with
        | some l => mergeBlocklist (shieldAuthorized hash cfg patch)
            (pruneExpired cfg.blocklist now) l
        | none => pruneExpired cfg.blocklist now)
      rcases hpb : patch.blocklist with _ | l
      · exact (mem_pruneExpired _ _ _).2 ⟨hd, hexp⟩
      · simp only [mergeBlocklist, hub, Bool.false_eq_true, if_false]
        exact List.mem_append.2 (Or.inl ((mem_pruneExpired _ _ _).2 ⟨hd, hexp⟩))
    · intro d hd
      revert hd
      show d ∈ (match patch.whitelist with
        | some l => mergeWhitelist (shieldAuthorized hash cfg patch)
            (pruneExpired cfg.whitelist now) l
        | none => pruneExpired cfg.whitelist now) → d ∈ cfg.whitelist
      rcases hpw : patch.whitelist with _ | l
      · intro hd
        exact ((mem_pruneExpired _ _ _).1 hd).1
      · intro hd
        simp only [mergeWhitelist, hub, Bool.false_eq_true, if_false] at hd
        exact ((mem_pruneExpired _ _ _).1 (List.mem_filter.1 hd).1).1
  · intro hab
    refine ⟨?_, ?_, ?_⟩
    · intro b hb
      show (match patch.shield with
        | some b => if b then true
            else if shieldAuthorized hash cfg patch then false else cfg.shield
        | none => cfg.shield) = b
      rw [hb]
      cases b
      · simp [hab]
      · rfl
    · intro l hl
      show (match patch.blocklist with
        | some l => mergeBlocklist (shieldAuthorized hash cfg patch)
            (pruneExpired cfg.blocklist now) l
        | none => pruneExpired cfg.blocklist now) = l
      rw [hl]
      simp [mergeBlocklist, hab]
    · intro l hl
      show (match patch.whitelist with
        | some l => mergeWhitelist (shieldAuthorized hash cfg patch)
            (pruneExpired cfg.whitelist now) l
        | none => pruneExpired cfg.whitelist now) = l
      rw [hl]
      simp [mergeWhitelist, hab]

/-- Witness for C3 (amended): shield on, no password supplied — the
unexpired entry survives the emptying patch. -/
theorem editConfig_shield_gating_witness :
    ({ name := ['x'] } : Distraction) ∈
      (editConfig (fun s => '#' :: s)
        (some { blocklist := [{ name := ['x'] }]
                shield := true, passwordHash := some ['H'] })
        { blocklist := some [] } 10).blocklist :=
  ((editConfig_shield_gating (fun s => '#' :: s)
      { blocklist := [{ name := ['x'] }], shield := true, passwordHash := some ['H'] }
      { blocklist := some [] } 10 (by decide)).1 (by decide)).2.1
    { name := ['x'] } (by decide) (by decide)

/-- Claim C4: after any merge, an expired entry not re-listed by the
patch is absent from both lists of the resulting document — for any
stored document, any shield state and any (or no) password, since
expired entries are pruned before the shield diff is computed. -/
theorem editConfig_prunes_expired (hash : Str → Str) (store : Option Config)
    (patch : ConfigPatch) (now : Nat) (d : Distraction)
    (hexp : isExpired d now = true) :
    (d ∉ patch.blocklist.getD [] → d ∉ (editConfig hash store patch now).blocklist) ∧
    (d ∉ patch.whitelist.getD [] → d ∉ (editConfig hash store patch now).whitelist) := by
  have key : ∀ cfg : Config,
      (d ∉ patch.blocklist.getD [] →
        d ∉ (editConfig hash (some cfg) patch now).blocklist) ∧
      (d ∉ patch.whitelist.getD [] →
        d ∉ (editConfig hash (some cfg) patch now).whitelist) := by
    intro cfg
    rw [editConfig_some]
    constructor
    · intro hnp hmem
      revert hmem
      show d ∉ (match patch.blocklist with
        | some l => mergeBlocklist (shieldAuthorized hash cfg patch)
            (pruneExpired cfg.blocklist now) l
        | none => pruneExpired cfg.blocklist now)
      rcases hpb : patch.blocklist with _ | l
      · intro hmem
        have := ((mem_pruneExpired _ _ _).1 hmem).2
        rw [hexp] at this
        exact absurd this (by simp)
      · rw [hpb] at hnp
        simp only [Option.getD_some] at hnp
        cases hA : shieldAuthorized hash cfg patch
        · simp only [mergeBlocklist, Bool.false_eq_true, if_false]
          intro hmem
          rcases List.mem_append.1 hmem with hmem | hmem
          · have := ((mem_pruneExpired _ _ _).1 hmem).2
            rw [hexp] at this
            exact absurd this (by simp)
          · exact hnp (List.mem_filter.1 hmem).1
        · simp only [mergeBlocklist, if_true]
          exact hnp
    · intro hnp hmem
      revert hmem
      show d ∉ (match patch.whitelist with
        | some l => mergeWhitelist (shieldAuthorized hash cfg patch)
            (pruneExpired cfg.whitelist now) l
        | none => pruneExpired cfg.whitelist now)
      rcases hpw : patch.whitelist with _ | l
      · intro hmem
        have := ((mem_pruneExpired _ _ _).1 hmem).2
        rw [hexp] at this
        exact absurd this (by simp)
      · rw [hpw] at hnp
        simp only [Option.getD_some] at hnp
        cases hA : shieldAuthorized hash cfg patch
        · simp only [mergeWhitelist, Bool.false_eq_true, if_false]
          intro hmem
          have := ((mem_pruneExpired _ _ _).1 (List.mem_filter.1 hmem).1).2
          rw [hexp] at this
          exact absurd this (by simp)
        · simp only [mergeWhitelist, if_true]
          exact hnp
  cases store with
  | some cfg => exact key cfg
  | none =>
    rw [editConfig_none]
    exact key DEFAULT_CONFIG

/-- Witness for C4: an expired entry vanishes under the empty patch. -/
theorem editConfig_prunes_expired_witness :
    ({ name := ['x'], timeout := some 5 } : Distraction) ∉
      (editConfig (fun s => s)
        (some { blocklist := [{ name := ['x'], timeout := some 5 }] })
        {} 10).blocklist :=
  (editConfig_prunes_expired (fun s => s)
      (some { blocklist := [{ name := ['x'], timeout := some 5 }] })
      {} 10 { name := ['x'], timeout := some 5 } (by decide)).1 (by decide)

/-- Claim C9: with shield off, merging the patch `{blocklist: []}` twice
leaves the stored blocklist empty after each application, and the second
application returns the document produced by the first unchanged. -/
theorem merge_empty_blocklist_idem (hash : Str → Str) (cfg : Config) (now : Nat)
    (hs : cfg.shield = false) :
    (editConfig hash (some cfg) { blocklist := some [] } now).blocklist = [] ∧
    (editConfig hash (some (editConfig hash (some cfg) { blocklist := some [] } now))
        { blocklist := some [] } now).blocklist = [] ∧
    editConfig hash (some (editConfig hash (some cfg) { blocklist := some [] } now))
        { blocklist := some [] } now =
      editConfig hash (some cfg) { blocklist := some [] } now := by
  have hauth1 : shieldAuthorized hash cfg { blocklist := some [] } = true := by
    simp [shieldAuthorized, hs]
  have hr1 : editConfig hash (some cfg) { blocklist := some [] } now =
      { blocklist := [], whitelist := pruneExpired cfg.whitelist now
        shield := cfg.shield, passwordHash := cfg.passwordHash } := by
    rw [editConfig_some]
    simp [mergeBlocklist, hauth1]
  have hauth2 : shieldAuthorized hash
      { blocklist := ([] : List Distraction)
        whitelist := pruneExpired cfg.whitelist now
        shield := cfg.shield, passwordHash := cfg.passwordHash }
      { blocklist := some [] } = true := by
    simp [shieldAuthorized, hs]
  have hr2 : editConfig hash
      (some { blocklist := ([] : List Distraction)
              whitelist := pruneExpired cfg.whitelist now
              shield := cfg.shield, passwordHash := cfg.passwordHash })
      { blocklist := some [] } now =
      { blocklist := [], whitelist := pruneExpired cfg.whitelist now
        shield := cfg.shield, passwordHash := cfg.passwordHash } := by
    rw [editConfig_some]
    simp [mergeBlocklist, hauth2, pruneExpired_idem, pruneExpired]
  rw [hr1, hr2]
  exact ⟨rfl, rfl, rfl⟩

/-- Witness for C9: a one-entry blocklist with shield off. -/
theorem merge_empty_blocklist_idem_witness :
    (editConfig (fun s => s) (some { blocklist := [{ name := ['x'] }] })
      { blocklist := some [] } 0).blocklist = [] :=
  (merge_empty_blocklist_idem (fun s => s) { blocklist := [{ name := ['x'] }] } 0
    (by decide)).1

/-- Claim C10: merging against a missing policy document does not fail
with NotFound — the document is initialized to the default, the patch
applied and the result persisted, so a subsequent read returns a document
containing the patched fields (enabling shield with a password hash and
adding a blocklist entry both work on a fresh path). -/
theorem editConfig_initializes_missing :
    (∀ (hash : Str → Str) (patch : ConfigPatch) (now : Nat),
       editConfig hash none patch now = editConfig hash (some DEFAULT_CONFIG) patch now) ∧
    (∀ (hash : Str → Str) (now : Nat) (ph : Str) (d : Distraction),
       readConfig (some (editConfig hash none
           { blocklist := some [d], shield := some true, passwordHash := some ph } now)) =
         Except.ok (editConfig hash none
           { blocklist := some [d], shield := some true, passwordHash := some ph } now) ∧
       (editConfig hash none
           { blocklist := some [d], shield := some true, passwordHash := some ph }
           now).shield = true ∧
       (editConfig hash none
           { blocklist := some [d], shield := some true, passwordHash := some ph }
           now).passwordHash = some ph ∧
       d ∈ (editConfig hash none
           { blocklist := some [d], shield := some true, passwordHash := some ph }
           now).blocklist) := by
  refine ⟨fun hash patch now => rfl, ?_⟩
  intro hash now ph d
  refine ⟨rfl, rfl, rfl, ?_⟩
  show d ∈ [d]
  exact List.mem_singleton.2 rfl
